import Mathlib

/-!
# TalentFlow — verification of the optimistic-update / reorder core

A shallow embedding of the data-consistency core of the TalentFlow hiring
platform: the job/candidate data model, the simulated backend endpoints
(`src/store/index.ts`), the client storage layer (`StorageService`), the
Zustand UI stores, the React-Query hooks (`useJobs`, `useUpdateJob`,
`useReorderJobs`, `useCandidates`), and the retry wrapper
(`src/api/services.ts`).

Conventions of the embedding:
* ISO timestamp strings are modelled as `Nat` time values; `new Date().toISOString()`
  becomes an explicit `now : Nat` parameter threaded into each handler.
* Randomly generated ids (`Math.random().toString(36).substr(2, 9)`) become
  explicit `genId` / `eventId` parameters.
* The artificial latency (`addLatency`) and the random fault injection
  (`maybeError`) of the simulated backend are side effects that either do
  nothing or abort the whole handler before it runs; the handlers are modelled
  on their deterministic path.
* String-literal union types (`'active' | 'archived'`, candidate stages) are
  modelled as `String`, keeping JavaScript truthiness quirks visible.
* The IndexedDB tables (keyed by entity id) are modelled as `List` values;
  `setItem(id, record)` replaces the entries holding that id, or appends.
-/

/-- Salary range of a job (`salary?: {min, max, currency}`). -/
structure Salary where
  min : Int
  max : Int
  currency : String
deriving DecidableEq, Repr

/-- A job record (`interface Job extends BaseEntity`). The TS field `type`
is kept under the same name. -/
structure Job where
  id : String
  title : String
  slug : String
  description : String
  status : String
  tags : List String
  order : Int
  location : String
  type : String
  salary : Option Salary
  createdAt : Nat
  updatedAt : Nat
deriving DecidableEq, Repr

/-- An HTTP error response `new Response(status, {}, {success: false, message})`. -/
structure ErrorResponse where
  status : Nat
  message : String
deriving DecidableEq, Repr

deriving instance DecidableEq for Except

/-! ## The reorder shift, server side (`patch /jobs/:id/reorder` map) -/

/-- The backend per-job shift inside the `updatedJobs = jobs.map(...)` of the
`PATCH /jobs/:id/reorder` handler in `src/store/index.ts`. -/
def reorderShift (fromOrder toOrder : Int) (now : Nat) (job : Job) : Job :=
  if job.order = fromOrder then
    { job with order := toOrder, updatedAt := now }
  else if fromOrder < toOrder ∧ job.order > fromOrder ∧ job.order ≤ toOrder then
    { job with order := job.order - 1, updatedAt := now }
  else if fromOrder > toOrder ∧ job.order ≥ toOrder ∧ job.order < fromOrder then
    { job with order := job.order + 1, updatedAt := now }
  else job

/-- The same shift at the level of bare order values. -/
def shiftOrder (fromOrder toOrder o : Int) : Int :=
  if o = fromOrder then toOrder
  else if fromOrder < toOrder ∧ o > fromOrder ∧ o ≤ toOrder then o - 1
  else if fromOrder > toOrder ∧ o ≥ toOrder ∧ o < fromOrder then o + 1
  else o

/-! ## The reorder shift, client side (`useReorderJobs` `onMutate` map) -/

/-- The client per-job shift inside `optimisticJobs = jobs.map(...)` of
`useReorderJobs`'s `onMutate` (hooks file): identical conditions, but the
client copy does not touch `updatedAt`. -/
def clientReorderShift (fromOrder toOrder : Int) (job : Job) : Job :=
  if job.order = fromOrder then { job with order := toOrder }
  else if fromOrder < toOrder ∧ job.order > fromOrder ∧ job.order ≤ toOrder then
    { job with order := job.order - 1 }
  else if fromOrder > toOrder ∧ job.order ≥ toOrder ∧ job.order < fromOrder then
    { job with order := job.order + 1 }
  else job

/-- The optimistic client-side projection: the whole `jobs.map(...)` of
`useReorderJobs.onMutate`. -/
def clientReorderProjection (fromOrder toOrder : Int) (jobs : List Job) : List Job :=
  jobs.map (clientReorderShift fromOrder toOrder)

/-! ## StorageService (jobs table) -/

/-- `StorageService.saveJob`: `jobsStore.setItem(job.id, job)` on the keyed
jobs table — replace the entries holding this id, or append a fresh entry. -/
def saveJob (table : List Job) (job : Job) : List Job :=
  if table.any (fun j => j.id = job.id) then
    table.map (fun j => if j.id = job.id then job else j)
  else table ++ [job]

/-- `StorageService.getJob(id)`: `jobsStore.getItem(id)`. -/
def getJob (table : List Job) (id : String) : Option Job :=
  table.find? (fun j => j.id = id)

/-- The sort key of `StorageService.getAllJobs`'s
`(a.order || 999999) - (b.order || 999999)`: JavaScript truthiness sends a
zero order to 999999. -/
def orderSortKey (o : Int) : Int :=
  if o = 0 then 999999 else o

/-- `StorageService.getAllJobs`: iterate the jobs table and sort by
(truthiness-defaulted) order with the stable `Array.prototype.sort`, here a
stable insertion sort. The per-record validation defaults are the identity on
well-formed records and are omitted. -/
def getAllJobs (table : List Job) : List Job :=
  List.insertionSort (fun a b => orderSortKey a.order ≤ orderSortKey b.order) table

/-- `StorageService.getJobBySlug(slug)`: `getAllJobs` then `find` by slug. -/
def getJobBySlug (table : List Job) (slug : String) : Option Job :=
  (getAllJobs table).find? (fun j => j.slug = slug)

/-! ## Simulated backend endpoints for jobs -/

/-- `PATCH /jobs/:id/reorder`: read all jobs, locate the job at `fromOrder`
(400 "Job not found" when absent), shift every affected job, save each updated
job back. Returns the response and the resulting jobs table. -/
def reorderEndpoint (table : List Job) (fromOrder toOrder : Int) (now : Nat) :
    Except ErrorResponse (List Job) × List Job :=
  let jobs := getAllJobs table
  match jobs.find? (fun job => job.order = fromOrder) with
  | none => (.error ⟨400, "Job not found"⟩, table)
  | some _ =>
    let updatedJobs := jobs.map (reorderShift fromOrder toOrder now)
    (.ok updatedJobs, updatedJobs.foldl saveJob table)

/-- Request body of `POST /jobs` (job fields sans timestamps; `id` optional —
`jobData.id || Math.random()...`). -/
structure JobCreateBody where
  id : Option String
  title : String
  slug : String
  description : String
  status : String
  tags : List String
  order : Int
  location : String
  type : String
  salary : Option Salary
deriving DecidableEq, Repr

/-- `POST /jobs`: reject with 400 "Slug already exists" when the slug is taken,
otherwise persist `{...jobData, id, createdAt: now, updatedAt: now}`. -/
def postJobsEndpoint (table : List Job) (body : JobCreateBody) (genId : String)
    (now : Nat) : Except ErrorResponse Job × List Job :=
  match getJobBySlug table body.slug with
  | some _ => (.error ⟨400, "Slug already exists"⟩, table)
  | none =>
    let job : Job :=
      { id := body.id.getD genId
        title := body.title
        slug := body.slug
        description := body.description
        status := body.status
        tags := body.tags
        order := body.order
        location := body.location
        type := body.type
        salary := body.salary
        createdAt := now
        updatedAt := now }
    (.ok job, saveJob table job)

/-- `DELETE /jobs/:id`: archive instead of delete — 404 when the job is
missing, otherwise save `{...existingJob, status: 'archived', updatedAt: now}`. -/
def deleteJobEndpoint (table : List Job) (id : String) (now : Nat) :
    Except ErrorResponse Job × List Job :=
  match getJob table id with
  | none => (.error ⟨404, "Job not found"⟩, table)
  | some existingJob =>
    let archivedJob : Job := { existingJob with status := "archived", updatedAt := now }
    (.ok archivedJob, saveJob table archivedJob)

/-! ## Zustand stores (`src/store/index.ts`, top) -/

/-- `LoadingState`. -/
structure LoadingState where
  isLoading : Bool
  error : Option String
deriving DecidableEq, Repr

/-- The jobs store `filters` slice. -/
structure JobsFilters where
  search : String
  status : String
  tags : List String
  sort : String
  sortDirection : String
deriving DecidableEq, Repr

/-- The `pagination` slice shared by the jobs and candidates stores. -/
structure Pagination where
  page : Nat
  pageSize : Nat
  total : Nat
  totalPages : Nat
deriving DecidableEq, Repr

/-- The jobs store state (`JobsState`). -/
structure JobsStoreState where
  jobs : List Job
  currentJob : Option Job
  loading : LoadingState
  filters : JobsFilters
  pagination : Pagination
deriving DecidableEq, Repr

/-- `Partial<Job>` — every Job field optional, applied by object spread. -/
structure JobPatch where
  id : Option String
  title : Option String
  slug : Option String
  description : Option String
  status : Option String
  tags : Option (List String)
  order : Option Int
  location : Option String
  type : Option String
  salary : Option (Option Salary)
  createdAt : Option Nat
  updatedAt : Option Nat
deriving DecidableEq, Repr

/-- `{ ...job, ...updates }` for a `Partial<Job>` patch. -/
def applyJobPatch (job : Job) (p : JobPatch) : Job :=
  { id := p.id.getD job.id
    title := p.title.getD job.title
    slug := p.slug.getD job.slug
    description := p.description.getD job.description
    status := p.status.getD job.status
    tags := p.tags.getD job.tags
    order := p.order.getD job.order
    location := p.location.getD job.location
    type := p.type.getD job.type
    salary := p.salary.getD job.salary
    createdAt := p.createdAt.getD job.createdAt
    updatedAt := p.updatedAt.getD job.updatedAt }

/-- Jobs store action `setJobs`. -/
def setJobs (s : JobsStoreState) (jobs : List Job) : JobsStoreState :=
  { s with jobs := jobs }

/-- Jobs store action `updateJob(id, updates)`: shallow-merge into every list
entry with that id and into `currentJob` when the ids match. -/
def updateJobAction (s : JobsStoreState) (id : String) (updates : JobPatch) :
    JobsStoreState :=
  { s with
    jobs := s.jobs.map (fun job => if job.id = id then applyJobPatch job updates else job)
    currentJob :=
      match s.currentJob with
      | some cur => if cur.id = id then some (applyJobPatch cur updates) else some cur
      | none => none }

/-- Jobs store action `setPagination` (the hooks always pass all four fields,
so the partial merge is a full replacement here). -/
def setPaginationAction (s : JobsStoreState) (p : Pagination) : JobsStoreState :=
  { s with pagination := p }

/-- `PaginatedResponse<T>` from the client API layer. -/
structure PaginatedResponse (α : Type) where
  data : List α
  total : Nat
  page : Nat
  pageSize : Nat
  totalPages : Nat
deriving DecidableEq, Repr

/-! ## Jobs hooks (`useJobs`, `useUpdateJob`, `useReorderJobs`) -/

/-- `Math.ceil(a / b)` on naturals. -/
def ceilDiv (a b : Nat) : Nat := (a + b - 1) / b

/-- The merge effect of `useJobs`: on a resolved list query, keep every
store job whose id is absent from the server result appended after the
server records, and report `total + optimisticJobs.length` to pagination. -/
def useJobsMergeEffect (queryData : PaginatedResponse Job) (store : JobsStoreState) :
    JobsStoreState :=
  let serverJobs := queryData.data
  let currentJobs := store.jobs
  let optimisticJobs :=
    currentJobs.filter (fun job => (serverJobs.find? (fun sj => sj.id = job.id)).isNone)
  let mergedJobs := serverJobs ++ optimisticJobs
  setPaginationAction (setJobs store mergedJobs)
    { page := queryData.page
      pageSize := queryData.pageSize
      total := queryData.total + optimisticJobs.length
      totalPages := ceilDiv (queryData.total + optimisticJobs.length) queryData.pageSize }

/-- The context captured by `useUpdateJob.onMutate`
(`{ previousJobs, previousJob }`). -/
structure UpdateJobContext where
  previousJobs : Option (PaginatedResponse Job)
  previousJob : Option Job
deriving DecidableEq, Repr

/-- `useUpdateJob.onMutate`: snapshot both query caches, optimistically apply
the patch to the Zustand store (`updateJob`) and to the `['job', id]` cache.
Returns (store, ['jobs'] cache, ['job', id] cache, context). -/
def useUpdateJobOnMutate (store : JobsStoreState)
    (cacheJobs : Option (PaginatedResponse Job)) (cacheJob : Option Job)
    (id : String) (updates : JobPatch) :
    JobsStoreState × Option (PaginatedResponse Job) × Option Job × UpdateJobContext :=
  let context : UpdateJobContext := ⟨cacheJobs, cacheJob⟩
  let store := updateJobAction store id updates
  let cacheJob := cacheJob.map (fun old => applyJobPatch old updates)
  (store, cacheJobs, cacheJob, context)

/-- `useUpdateJob.onError`: restore the two React-Query caches from the
context snapshots (when present). The Zustand store is not touched. -/
def useUpdateJobOnError (store : JobsStoreState)
    (cacheJobs : Option (PaginatedResponse Job)) (cacheJob : Option Job)
    (context : UpdateJobContext) :
    JobsStoreState × Option (PaginatedResponse Job) × Option Job :=
  let cacheJobs := match context.previousJobs with
    | some prev => some prev
    | none => cacheJobs
  let cacheJob := match context.previousJob with
    | some prev => some prev
    | none => cacheJob
  (store, cacheJobs, cacheJob)

/-- A `useUpdateJob` mutation whose commit fails after retries:
`onMutate` then `onError`. -/
def useUpdateJobFailed (store : JobsStoreState)
    (cacheJobs : Option (PaginatedResponse Job)) (cacheJob : Option Job)
    (id : String) (updates : JobPatch) :
    JobsStoreState × Option (PaginatedResponse Job) × Option Job :=
  match useUpdateJobOnMutate store cacheJobs cacheJob id updates with
  | (store1, cacheJobs1, cacheJob1, context) =>
    useUpdateJobOnError store1 cacheJobs1 cacheJob1 context

/-- `useReorderJobs.onMutate`: snapshot the `['jobs']` cache; when it holds
data and a job sits at `fromOrder`, push the optimistic projection into the
Zustand store via `setJobs`. Returns (store, context = `{ previousJobs }`). -/
def useReorderJobsOnMutate (store : JobsStoreState)
    (cacheJobs : Option (PaginatedResponse Job)) (fromOrder toOrder : Int) :
    JobsStoreState × Option (PaginatedResponse Job) :=
  match cacheJobs with
  | some previousJobs =>
    let jobs := previousJobs.data
    match jobs.find? (fun job => job.order = fromOrder) with
    | some _ => (setJobs store (clientReorderProjection fromOrder toOrder jobs), some previousJobs)
    | none => (store, some previousJobs)
  | none => (store, none)

/-- `useReorderJobs.onError`: `setJobs(context.previousJobs.data || [])`
when a snapshot was captured. -/
def useReorderJobsOnError (store : JobsStoreState)
    (context : Option (PaginatedResponse Job)) : JobsStoreState :=
  match context with
  | some previousJobs => setJobs store previousJobs.data
  | none => store

/-- A `useReorderJobs` mutation whose commit fails after retries:
`onMutate` then `onError`. -/
def useReorderJobsFailed (store : JobsStoreState)
    (cacheJobs : Option (PaginatedResponse Job)) (fromOrder toOrder : Int) :
    JobsStoreState :=
  match useReorderJobsOnMutate store cacheJobs fromOrder toOrder with
  | (store1, context) => useReorderJobsOnError store1 context

/-! ## Candidates: data model -/

/-- `CandidateNote`. -/
structure CandidateNote where
  id : String
  content : String
  authorId : String
  authorName : String
  mentions : List String
  createdAt : Nat
  updatedAt : Nat
deriving DecidableEq, Repr

/-- `CandidateTimelineEvent` (`previousStage` / `newStage` optional). -/
structure CandidateTimelineEvent where
  id : String
  type : String
  description : String
  previousStage : Option String
  newStage : Option String
  createdAt : Nat
  updatedAt : Nat
deriving DecidableEq, Repr

/-- `Candidate` (stage is one of the strings applied/screen/tech/offer/hired/rejected). -/
structure Candidate where
  id : String
  name : String
  email : String
  phone : Option String
  stage : String
  jobId : String
  notes : List CandidateNote
  timeline : List CandidateTimelineEvent
  createdAt : Nat
  updatedAt : Nat
deriving DecidableEq, Repr

/-! ## StorageService (candidates table) -/

/-- `StorageService.saveCandidate`: `candidatesStore.setItem(candidate.id, candidate)`. -/
def saveCandidate (table : List Candidate) (candidate : Candidate) : List Candidate :=
  if table.any (fun c => c.id = candidate.id) then
    table.map (fun c => if c.id = candidate.id then candidate else c)
  else table ++ [candidate]

/-- `StorageService.getCandidate(id)`. -/
def getCandidate (table : List Candidate) (id : String) : Option Candidate :=
  table.find? (fun c => c.id = id)

/-! ## Simulated backend endpoints for candidates -/

/-- Request body of `POST /candidates`: the handler spreads `candidateData`
first and then overrides `id`, `notes`, `timeline` and the timestamps, so any
notes/timeline supplied by the caller are discarded. -/
structure CandidateCreateBody where
  id : Option String
  name : String
  email : String
  phone : Option String
  stage : String
  jobId : String
  notes : List CandidateNote
  timeline : List CandidateTimelineEvent
deriving DecidableEq, Repr

/-- `POST /candidates`: persist `{...candidateData, id, notes: [],
timeline: [applied event], createdAt: now, updatedAt: now}`. -/
def postCandidatesEndpoint (table : List Candidate) (body : CandidateCreateBody)
    (genId eventId : String) (now : Nat) :
    Except ErrorResponse Candidate × List Candidate :=
  let candidate : Candidate :=
    { id := body.id.getD genId
      name := body.name
      email := body.email
      phone := body.phone
      stage := body.stage
      jobId := body.jobId
      notes := []
      timeline := [{ id := eventId
                     type := "stage_change"
                     description := "Applied to position"
                     previousStage := none
                     newStage := some body.stage
                     createdAt := now
                     updatedAt := now }]
      createdAt := now
      updatedAt := now }
  (.ok candidate, saveCandidate table candidate)

/-- `Partial<Candidate>` as used by `PATCH /candidates/:id`, restricted to the
fields the stage-update claims exercise (`stage`, plus `name` and `notes` as
representatives of the other shallow-merged fields). -/
structure CandidatePatch where
  stage : Option String
  name : Option String
  notes : Option (List CandidateNote)
deriving DecidableEq, Repr

/-- The body of `PATCH /candidates/:id` on an existing candidate:
`updateData.stage && updateData.stage !== existingCandidate.stage` (string
truthiness: an empty stage string is falsy) appends one `stage_change`
timeline event, then `{...existingCandidate, ...updateData, timeline,
updatedAt: now}`. -/
def patchCandidateApply (c : Candidate) (body : CandidatePatch)
    (eventId : String) (now : Nat) : Candidate :=
  let timeline :=
    match body.stage with
    | some s =>
      if s ≠ "" ∧ s ≠ c.stage then
        c.timeline ++ [{ id := eventId
                         type := "stage_change"
                         description := "Moved to " ++ s ++ " stage"
                         previousStage := some c.stage
                         newStage := some s
                         createdAt := now
                         updatedAt := now }]
      else c.timeline
    | none => c.timeline
  { id := c.id
    name := body.name.getD c.name
    email := c.email
    phone := c.phone
    stage := body.stage.getD c.stage
    jobId := c.jobId
    notes := body.notes.getD c.notes
    timeline := timeline
    createdAt := c.createdAt
    updatedAt := now }

/-- `PATCH /candidates/:id`: 404 when the candidate is missing, otherwise
apply the patch and save. Returns the response and the resulting table. -/
def patchCandidateEndpoint (table : List Candidate) (id : String)
    (body : CandidatePatch) (eventId : String) (now : Nat) :
    Except ErrorResponse Candidate × List Candidate :=
  match getCandidate table id with
  | none => (.error ⟨404, "Candidate not found"⟩, table)
  | some existingCandidate =>
    let updatedCandidate := patchCandidateApply existingCandidate body eventId now
    (.ok updatedCandidate, saveCandidate table updatedCandidate)

/-- One stage-update request of a `PATCH /candidates/:id` sequence: the
requested stage together with that call's generated event id and clock value. -/
structure StageUpdateRequest where
  stage : String
  eventId : String
  now : Nat
deriving DecidableEq, Repr

/-- A sequence of stage updates applied through the PATCH endpoint, each
seeing the table the previous one produced. -/
def applyStageUpdates (table : List Candidate) (id : String) :
    List StageUpdateRequest → List Candidate
  | [] => table
  | r :: rest =>
    applyStageUpdates
      (patchCandidateEndpoint table id ⟨some r.stage, none, none⟩ r.eventId r.now).2
      id rest

/-! ## Candidates store and `useCandidates` effect -/

/-- The candidates store `filters` slice. -/
structure CandidatesFilters where
  search : String
  stage : String
  jobId : String
deriving DecidableEq, Repr

/-- The candidates store state (`CandidatesState`). -/
structure CandidatesStoreState where
  candidates : List Candidate
  currentCandidate : Option Candidate
  loading : LoadingState
  filters : CandidatesFilters
  pagination : Pagination
deriving DecidableEq, Repr

/-- Candidates store action `setCandidates`. -/
def setCandidates (s : CandidatesStoreState) (candidates : List Candidate) :
    CandidatesStoreState :=
  { s with candidates := candidates }

/-- Candidates store action `setPagination`. -/
def setCandidatesPagination (s : CandidatesStoreState) (p : Pagination) :
    CandidatesStoreState :=
  { s with pagination := p }

/-- The list-query effect of `useCandidates`: unlike `useJobs`, it overwrites
the store with the server result (`setCandidates(serverCandidates)`) and
reports the server totals unchanged. -/
def useCandidatesListEffect (queryData : PaginatedResponse Candidate)
    (store : CandidatesStoreState) : CandidatesStoreState :=
  let serverCandidates := queryData.data
  setCandidatesPagination (setCandidates store serverCandidates)
    { page := queryData.page
      pageSize := queryData.pageSize
      total := queryData.total
      totalPages := queryData.totalPages }

/-! ## Specification-side helpers for the stage-change timeline claim -/

/-- Each request in the sequence asks for a non-empty stage different from the
stage the candidate holds when that request is applied. -/
def stageChainOk (s0 : String) : List StageUpdateRequest → Prop
  | [] => True
  | r :: rest => r.stage ≠ "" ∧ r.stage ≠ s0 ∧ stageChainOk r.stage rest

instance (s0 : String) (l : List StageUpdateRequest) : Decidable (stageChainOk s0 l) := by
  induction l generalizing s0 with
  | nil => exact isTrue trivial
  | cons r rest ih =>
    haveI := ih r.stage
    exact instDecidableAnd

/-- The timeline events a chain of stage updates starting at `s0` must append. -/
def expectedStageEvents (s0 : String) : List StageUpdateRequest → List CandidateTimelineEvent
  | [] => []
  | r :: rest =>
    { id := r.eventId
      type := "stage_change"
      description := "Moved to " ++ r.stage ++ " stage"
      previousStage := some s0
      newStage := some r.stage
      createdAt := r.now
      updatedAt := r.now } :: expectedStageEvents r.stage rest

/-- The stage after a chain of stage updates. -/
def finalStage (s0 : String) : List StageUpdateRequest → String
  | [] => s0
  | r :: rest => finalStage r.stage rest

/-- The `updatedAt` after a chain of stage updates. -/
def finalUpdatedAt (t0 : Nat) : List StageUpdateRequest → Nat
  | [] => t0
  | r :: rest => finalUpdatedAt r.now rest

/-! ## The retry wrapper (`src/api/services.ts`) -/

/-- A thrown JavaScript error as the retry layer sees it: either an `ApiError`
instance (with its optional numeric `status`) or any other `Error`. -/
inductive JsError where
  | apiError (status : Option Nat) (message : String)
  | plainError (message : String)
deriving DecidableEq, Repr

/-- `handleApiError`: an `ApiError` passes through; a plain `Error` has
neither `.response` nor `.request`, so it becomes `new ApiError(error.message)`
with no status. -/
def handleApiError : JsError → JsError
  | .apiError status message => .apiError status message
  | .plainError message => .apiError none message

/-- The non-retry test `error instanceof ApiError && error.status &&
error.status < 500` (note the truthiness of `error.status`). -/
def isNonRetryable : JsError → Bool
  | .apiError (some status) _ => status ≠ 0 ∧ status < 500
  | .apiError none _ => false
  | .plainError _ => false

/-- The error `apiCall` throws for a non-ok HTTP response:
`throw new Error(data.message || ...)` — a plain `Error`, not an `ApiError`. -/
def apiCallError (message : String) : JsError :=
  .plainError message

/-- What one run of `withRetry` did: its outcome, how many times it invoked
`fn`, and the backoff delays it waited (in order). -/
structure RetryTrace (α : Type) where
  result : Except JsError α
  calls : Nat
  delays : List Nat
deriving Repr

/-- The loop body of `withRetry`, at iteration `i` with
`remaining = maxRetries - i` further iterations allowed. On the last allowed
iteration an error is wrapped by `handleApiError`; earlier, a non-retryable
error is rethrown as-is, anything else waits `delay * 2^i` and retries. -/
def withRetryFrom (attempts : Nat → Except JsError α) (delay : Nat) :
    Nat → Nat → RetryTrace α
  | i, 0 =>
    match attempts i with
    | .ok v => ⟨.ok v, 1, []⟩
    | .error e => ⟨.error (handleApiError e), 1, []⟩
  | i, remaining + 1 =>
    match attempts i with
    | .ok v => ⟨.ok v, 1, []⟩
    | .error e =>
      if isNonRetryable e then ⟨.error e, 1, []⟩
      else
        let t := withRetryFrom attempts delay (i + 1) remaining
        ⟨t.result, t.calls + 1, delay * 2 ^ i :: t.delays⟩

/-- `withRetry(fn, maxRetries, delay)`, with the i-th invocation of `fn`
modelled as `attempts i` (the TS defaults are `maxRetries = 3`,
`delay = 1000`). -/
def withRetry (attempts : Nat → Except JsError α) (maxRetries delay : Nat) :
    RetryTrace α :=
  withRetryFrom attempts delay 0 maxRetries

/-! ## Concrete sample records for scenario checks -/

/-- A concrete job used for scenario checks. -/
def mkJob (id : String) (slug : String) (order : Int) : Job :=
  { id := id
    title := "Job " ++ id
    slug := slug
    description := ""
    status := "active"
    tags := []
    order := order
    location := "Remote"
    type := "full-time"
    salary := none
    createdAt := 1
    updatedAt := 1 }

/-- Job A at order 0 (spec scenario). -/
def jobA : Job := mkJob "a" "job-a" 0

/-- Job B at order 1 (spec scenario). -/
def jobB : Job := mkJob "b" "job-b" 1

/-- Job C at order 2 (spec scenario). -/
def jobC : Job := mkJob "c" "job-c" 2

/-- A job sitting at the non-contiguous order 2 (for gap scenarios). -/
def jobGap : Job := mkJob "g" "job-g" 2

/-- A job sitting at the non-contiguous order 3 (for gap scenarios). -/
def jobGap3 : Job := mkJob "g3" "job-g3" 3

/-- A concrete candidate used for scenario checks. -/
def mkCandidate (id : String) (stage : String) : Candidate :=
  { id := id
    name := "Candidate " ++ id
    email := id ++ "@example.com"
    phone := none
    stage := stage
    jobId := "a"
    notes := []
    timeline := []
    createdAt := 1
    updatedAt := 1 }

/-- A concrete candidate at stage "screen". -/
def candScreen : Candidate := mkCandidate "c1" "screen"

/-- A concrete jobs store holding jobs A and B. -/
def sampleJobsStore : JobsStoreState :=
  { jobs := [jobA, jobB]
    currentJob := none
    loading := { isLoading := false, error := none }
    filters := { search := "", status := "all", tags := [], sort := "order", sortDirection := "asc" }
    pagination := { page := 1, pageSize := 10, total := 2, totalPages := 1 } }

/-- A concrete candidates store holding one optimistically-added candidate. -/
def sampleCandidatesStore : CandidatesStoreState :=
  { candidates := [candScreen]
    currentCandidate := none
    loading := { isLoading := false, error := none }
    filters := { search := "", stage := "all", jobId := "" }
    pagination := { page := 1, pageSize := 50, total := 1, totalPages := 1 } }

/-! # General lemmas -/

theorem reorderShift_order (f t : Int) (now : Nat) (j : Job) :
    (reorderShift f t now j).order = shiftOrder f t j.order := by
  simp only [reorderShift, shiftOrder]
  split_ifs <;> rfl

theorem reorderShift_id (f t : Int) (now : Nat) (j : Job) :
    (reorderShift f t now j).id = j.id := by
  simp only [reorderShift]
  split_ifs <;> rfl

theorem shiftOrder_injective (f t : Int) : Function.Injective (shiftOrder f t) := by
  intro a b h
  simp only [shiftOrder] at h
  split_ifs at h <;> omega

theorem getAllJobs_perm (table : List Job) : (getAllJobs table).Perm table :=
  List.perm_insertionSort _ table

theorem mem_getAllJobs {table : List Job} {j : Job} :
    j ∈ getAllJobs table ↔ j ∈ table :=
  (getAllJobs_perm table).mem_iff

theorem find?_map_saveJob (j : Job) (table : List Job)
    (h : table.any (fun x => x.id = j.id)) :
    (table.map (fun x => if x.id = j.id then j else x)).find?
      (fun x => x.id = j.id) = some j := by
  induction table with
  | nil => simp at h
  | cons x xs ih =>
    by_cases hx : x.id = j.id
    · simp [hx]
    · have hxs : xs.any (fun y => y.id = j.id) := by
        simp only [List.any_cons, Bool.or_eq_true, decide_eq_true_eq] at h
        rcases h with h | h
        · exact absurd h hx
        · exact h
      simpa [hx] using ih hxs

theorem getJob_saveJob_self (table : List Job) (j : Job) :
    getJob (saveJob table j) j.id = some j := by
  unfold getJob saveJob
  by_cases h : table.any (fun x => x.id = j.id)
  · rw [if_pos h]
    exact find?_map_saveJob j table h
  · rw [if_neg h, List.find?_append]
    have hnone : table.find? (fun x => x.id = j.id) = none := by
      rw [List.find?_eq_none]
      intro x hx hxe
      exact h (List.any_eq_true.mpr ⟨x, hx, hxe⟩)
    simp [hnone]

theorem find?_map_saveCandidate (c : Candidate) (table : List Candidate)
    (h : table.any (fun x => x.id = c.id)) :
    (table.map (fun x => if x.id = c.id then c else x)).find?
      (fun x => x.id = c.id) = some c := by
  induction table with
  | nil => simp at h
  | cons x xs ih =>
    by_cases hx : x.id = c.id
    · simp [hx]
    · have hxs : xs.any (fun y => y.id = c.id) := by
        simp only [List.any_cons, Bool.or_eq_true, decide_eq_true_eq] at h
        rcases h with h | h
        · exact absurd h hx
        · exact h
      simpa [hx] using ih hxs

theorem getCandidate_saveCandidate_self (table : List Candidate) (c : Candidate) :
    getCandidate (saveCandidate table c) c.id = some c := by
  unfold getCandidate saveCandidate
  by_cases h : table.any (fun x => x.id = c.id)
  · rw [if_pos h]
    exact find?_map_saveCandidate c table h
  · rw [if_neg h, List.find?_append]
    have hnone : table.find? (fun x => x.id = c.id) = none := by
      rw [List.find?_eq_none]
      intro x hx hxe
      exact h (List.any_eq_true.mpr ⟨x, hx, hxe⟩)
    simp [hnone]

/-! # Claim theorems -/

/-- **C2**: for every input collection of jobs and every `(fromOrder, toOrder)`
pair, the optimistic client-side projection of `useReorderJobs.onMutate` and
the shift map of the `PATCH /jobs/:id/reorder` handler assign identical order
values (and ids) to every job — the two implementations agree extensionally on
order assignment, ignoring `updatedAt`. -/
theorem claim2_client_server_reorder_agree (jobs : List Job)
    (fromOrder toOrder : Int) (now : Nat) :
    (jobs.map (reorderShift fromOrder toOrder now)).map (fun j => (j.id, j.order)) =
      (clientReorderProjection fromOrder toOrder jobs).map (fun j => (j.id, j.order)) := by
  simp only [clientReorderProjection, List.map_map]
  refine List.map_congr_left (fun j _ => ?_)
  simp only [Function.comp_apply, reorderShift, clientReorderShift]
  split_ifs <;> rfl

/-- **C7**: creating a job whose slug equals the slug of an existing job fails
with HTTP 400 "Slug already exists" (the Conflict kind) and leaves the jobs
table unchanged. -/
theorem claim7_slug_conflict (table : List Job) (body : JobCreateBody)
    (genId : String) (now : Nat) (j : Job) (hj : j ∈ table)
    (hslug : j.slug = body.slug) :
    postJobsEndpoint table body genId now =
      (.error ⟨400, "Slug already exists"⟩, table) := by
  have hsome : (getJobBySlug table body.slug).isSome := by
    unfold getJobBySlug
    rw [List.find?_isSome]
    exact ⟨j, mem_getAllJobs.mpr hj, by simpa using hslug⟩
  obtain ⟨x, hx⟩ := Option.isSome_iff_exists.mp hsome
  simp only [postJobsEndpoint, hx]

/-- Witness for C7: creating a second job with slug "job-a" is rejected and
persists nothing. -/
theorem claim7_witness :
    jobA ∈ [jobA, jobB] ∧ jobA.slug = "job-a" ∧
    postJobsEndpoint [jobA, jobB]
        ⟨none, "T", "job-a", "", "active", [], 7, "", "full-time", none⟩ "newid" 5 =
      (.error ⟨400, "Slug already exists"⟩, [jobA, jobB]) :=
  ⟨by decide, by decide,
    claim7_slug_conflict [jobA, jobB]
      ⟨none, "T", "job-a", "", "active", [], 7, "", "full-time", none⟩ "newid" 5
      jobA (by decide) (by decide)⟩

/-- **C9**: `DELETE /jobs/:id` on an existing job archives rather than removes
it — the response and the storage hold a record with the same id whose status
is "archived", whose `updatedAt` is the call's clock value, and whose
`createdAt` and every other field are unchanged. -/
theorem claim9_delete_archives (table : List Job) (id : String) (now : Nat)
    (job : Job) (h : getJob table id = some job) :
    ∃ archived : Job,
      deleteJobEndpoint table id now = (.ok archived, saveJob table archived) ∧
      getJob (deleteJobEndpoint table id now).2 id = some archived ∧
      archived.status = "archived" ∧
      archived.updatedAt = now ∧
      archived.id = job.id ∧
      archived.createdAt = job.createdAt ∧
      archived.title = job.title ∧
      archived.slug = job.slug ∧
      archived.description = job.description ∧
      archived.tags = job.tags ∧
      archived.order = job.order ∧
      archived.location = job.location ∧
      archived.type = job.type ∧
      archived.salary = job.salary := by
  have hid : job.id = id := by
    simp only [getJob] at h
    simpa using List.find?_some h
  refine ⟨{ job with status := "archived", updatedAt := now }, ?_, ?_,
    rfl, rfl, rfl, rfl, rfl, rfl, rfl, rfl, rfl, rfl, rfl, rfl⟩
  · simp only [deleteJobEndpoint, h]
  · simp only [deleteJobEndpoint, h]
    have := getJob_saveJob_self table { job with status := "archived", updatedAt := now }
    simpa [hid] using this

/-- Witness for C9 at a concrete table: archiving job "b". -/
theorem claim9_witness :
    getJob [jobA, jobB] "b" = some jobB ∧
    (∃ archived : Job,
      deleteJobEndpoint [jobA, jobB] "b" 9 = (.ok archived, saveJob [jobA, jobB] archived) ∧
      getJob (deleteJobEndpoint [jobA, jobB] "b" 9).2 "b" = some archived ∧
      archived.status = "archived" ∧
      archived.updatedAt = 9 ∧
      archived.id = jobB.id ∧
      archived.createdAt = jobB.createdAt ∧
      archived.title = jobB.title ∧
      archived.slug = jobB.slug ∧
      archived.description = jobB.description ∧
      archived.tags = jobB.tags ∧
      archived.order = jobB.order ∧
      archived.location = jobB.location ∧
      archived.type = jobB.type ∧
      archived.salary = jobB.salary) :=
  ⟨by decide, claim9_delete_archives [jobA, jobB] "b" 9 jobB (by decide)⟩

/-- **C10**: every candidate created via `POST /candidates` is persisted with
empty notes and a one-event timeline — a `stage_change` event with no
`previousStage` whose `newStage` is the submitted stage — regardless of any
notes or timeline supplied in the request body. -/
theorem claim10_candidate_create_baseline (table : List Candidate)
    (body : CandidateCreateBody) (genId eventId : String) (now : Nat) :
    ∃ c : Candidate,
      postCandidatesEndpoint table body genId eventId now = (.ok c, saveCandidate table c) ∧
      c.notes = [] ∧
      c.timeline = [{ id := eventId
                      type := "stage_change"
                      description := "Applied to position"
                      previousStage := none
                      newStage := some body.stage
                      createdAt := now
                      updatedAt := now }] ∧
      c.stage = body.stage ∧
      getCandidate (postCandidatesEndpoint table body genId eventId now).2
        (body.id.getD genId) = some c := by
  refine ⟨_, rfl, rfl, rfl, rfl, ?_⟩
  simpa only [postCandidatesEndpoint] using
    getCandidate_saveCandidate_self table _

/-- **C8 counterexample**: with a single job at order 2 and `fromOrder = 0`,
the reorder endpoint answers HTTP 400 (message "Job not found"), not the
HTTP 404 the claim asserts. -/
theorem claim8_counterexample :
    (∀ j ∈ [jobGap], j.order ≠ (0 : Int)) ∧
    (reorderEndpoint [jobGap] 0 1 5).1 = .error ⟨400, "Job not found"⟩ ∧
    ¬ (reorderEndpoint [jobGap] 0 1 5).1 = .error ⟨404, "Job not found"⟩ := by
  decide

/-- **C8 (amended)**: if no job occupies the requested `fromOrder`, the
reorder endpoint fails with HTTP 400 and message "Job not found" (the
handler's own not-found branch) and no job's order is modified — the table is
returned unchanged. -/
theorem claim8_missing_fromOrder (table : List Job) (fromOrder toOrder : Int)
    (now : Nat) (h : ∀ j ∈ table, j.order ≠ fromOrder) :
    reorderEndpoint table fromOrder toOrder now =
      (.error ⟨400, "Job not found"⟩, table) := by
  have hnone : (getAllJobs table).find? (fun job => job.order = fromOrder) = none := by
    rw [List.find?_eq_none]
    intro j hj
    simpa using h j (mem_getAllJobs.mp hj)
  simp only [reorderEndpoint, hnone]

/-- Witness for the amended C8 at a concrete table. -/
theorem claim8_witness :
    (∀ j ∈ [jobB, jobGap], j.order ≠ (0 : Int)) ∧
    reorderEndpoint [jobB, jobGap] 0 2 5 = (.error ⟨400, "Job not found"⟩, [jobB, jobGap]) :=
  ⟨by decide, claim8_missing_fromOrder [jobB, jobGap] 0 2 5 (by decide)⟩

/-- **C3 counterexample**: a `useUpdateJob` mutation whose commit fails leaves
the optimistically-patched job in the Synchronous UI Store — after settlement
the store differs from its pre-mutation state, because `onError` restores only
the two React-Query caches. -/
theorem claim3_counterexample :
    (useUpdateJobFailed sampleJobsStore
        (some ⟨[jobA, jobB], 2, 1, 10, 1⟩) (some jobA) "a"
        ⟨none, some "Renamed", none, none, none, none, none, none, none, none,
          none, none⟩).1 ≠ sampleJobsStore := by
  decide

/-- **C3 (amended)**: for a reorder mutation via `useReorderJobs` whose commit
fails after retries, `onError` restores the jobs store from the `['jobs']`
cache snapshot, so whenever that snapshot's data equals the store's
pre-mutation jobs list (and also when no snapshot exists), the store after
settlement equals its pre-mutation state field by field. For `useUpdateJob`
only the React-Query caches are restored (see the counterexample). -/
theorem claim3_reorder_rollback (store : JobsStoreState)
    (pd : PaginatedResponse Job) (fromOrder toOrder : Int)
    (hdata : pd.data = store.jobs) :
    useReorderJobsFailed store (some pd) fromOrder toOrder = store ∧
    useReorderJobsFailed store none fromOrder toOrder = store := by
  constructor
  · simp only [useReorderJobsFailed, useReorderJobsOnMutate, useReorderJobsOnError]
    cases hfind : pd.data.find? (fun job => job.order = fromOrder) <;>
      simp [setJobs, hdata]
  · rfl

/-- Witness for the amended C3: a failed reorder at a concrete store whose
cache snapshot matches the store. -/
theorem claim3_witness :
    (⟨[jobA, jobB], 2, 1, 10, 1⟩ : PaginatedResponse Job).data = sampleJobsStore.jobs ∧
    (useReorderJobsFailed sampleJobsStore (some ⟨[jobA, jobB], 2, 1, 10, 1⟩) 0 1 =
        sampleJobsStore ∧
      useReorderJobsFailed sampleJobsStore none 0 1 = sampleJobsStore) :=
  ⟨by decide, claim3_reorder_rollback sampleJobsStore ⟨[jobA, jobB], 2, 1, 10, 1⟩ 0 1 (by decide)⟩

/-- **C4 (amended)**: for jobs, when a list query resolves, every store record
absent by id from the server result is kept, appended after the server
records, and the total reported to pagination is the server total plus the
number of such pending-only records. For candidates the store is overwritten
with the server result and the server totals are reported unchanged (see the
counterexample). -/
theorem claim4_jobs_merge_nonloss (queryData : PaginatedResponse Job)
    (store : JobsStoreState) (job : Job) (hj : job ∈ store.jobs)
    (habsent : ∀ sj ∈ queryData.data, sj.id ≠ job.id) :
    job ∈ (useJobsMergeEffect queryData store).jobs ∧
    (useJobsMergeEffect queryData store).jobs =
      queryData.data ++
        store.jobs.filter
          (fun j => (queryData.data.find? (fun sj => sj.id = j.id)).isNone) ∧
    (useJobsMergeEffect queryData store).pagination.total =
      queryData.total +
        (store.jobs.filter
          (fun j => (queryData.data.find? (fun sj => sj.id = j.id)).isNone)).length := by
  refine ⟨?_, rfl, rfl⟩
  simp only [useJobsMergeEffect, setPaginationAction, setJobs]
  refine List.mem_append.mpr (Or.inr ?_)
  refine List.mem_filter.mpr ⟨hj, ?_⟩
  simp only [Option.isNone_iff_eq_none, List.find?_eq_none, decide_eq_true_eq]
  intro sj hsj
  simpa using habsent sj hsj

/-- Witness for the amended C4: job C is optimistically present, the server
page still lacks it, and after the merge it survives with the total bumped. -/
theorem claim4_witness :
    jobC ∈ (setJobs sampleJobsStore [jobC]).jobs ∧
    (∀ sj ∈ [jobA], sj.id ≠ jobC.id) ∧
    (jobC ∈ (useJobsMergeEffect ⟨[jobA], 1, 1, 10, 1⟩ (setJobs sampleJobsStore [jobC])).jobs ∧
      (useJobsMergeEffect ⟨[jobA], 1, 1, 10, 1⟩ (setJobs sampleJobsStore [jobC])).jobs =
        [jobA] ++
          (setJobs sampleJobsStore [jobC]).jobs.filter
            (fun j => (([jobA] : List Job).find? (fun sj => sj.id = j.id)).isNone) ∧
      (useJobsMergeEffect ⟨[jobA], 1, 1, 10, 1⟩ (setJobs sampleJobsStore [jobC])).pagination.total =
        1 +
          ((setJobs sampleJobsStore [jobC]).jobs.filter
            (fun j => (([jobA] : List Job).find? (fun sj => sj.id = j.id)).isNone)).length) :=
  ⟨by decide, by decide,
    claim4_jobs_merge_nonloss ⟨[jobA], 1, 1, 10, 1⟩ (setJobs sampleJobsStore [jobC]) jobC
      (by decide) (by decide)⟩

/-- **C4 counterexample**: the candidates list effect overwrites the store —
an optimistically-added candidate absent from the server result disappears
and the reported total is the bare server total, violating the merge-on-read
claim for candidates. -/
theorem claim4_counterexample :
    candScreen ∈ sampleCandidatesStore.candidates ∧
    (useCandidatesListEffect ⟨[], 0, 1, 50, 0⟩ sampleCandidatesStore).candidates = [] ∧
    candScreen ∉ (useCandidatesListEffect ⟨[], 0, 1, 50, 0⟩ sampleCandidatesStore).candidates ∧
    (useCandidatesListEffect ⟨[], 0, 1, 50, 0⟩ sampleCandidatesStore).pagination.total = 0 := by
  decide

theorem withRetryFrom_all_fail {α : Type} (attempts : Nat → Except JsError α)
    (delay : Nat)
    (h : ∀ k, ∃ e, attempts k = .error e ∧ isNonRetryable e = false) :
    ∀ remaining i, (withRetryFrom attempts delay i remaining).calls = remaining + 1 ∧
      (withRetryFrom attempts delay i remaining).delays =
        (List.range remaining).map (fun k => delay * 2 ^ (i + k)) := by
  intro remaining
  induction remaining with
  | zero =>
    intro i
    obtain ⟨e, he, _⟩ := h i
    simp [withRetryFrom, he]
  | succ n ih =>
    intro i
    obtain ⟨e, he, hnr⟩ := h i
    have hi := ih (i + 1)
    refine ⟨?_, ?_⟩
    · simp [withRetryFrom, he, hnr, hi.1]
    · simp only [withRetryFrom, he, hnr, Bool.false_eq_true, if_false, hi.2,
        List.range_succ_eq_map, List.map_cons, List.map_map]
      refine congrArg₂ _ (by ring) (List.map_congr_left (fun k _ => ?_))
      simp only [Function.comp_apply, Nat.succ_eq_add_one]
      ring

/-- **C5 (amended)**: `withRetry` treats as non-retryable exactly the errors
that are `ApiError` instances with a truthy `status < 500`: such an error on
the first call propagates unchanged with a single call and no backoff wait,
while a run whose every attempt fails retryably (5xx-status `ApiError`s,
status-less errors, or plain `Error`s — including everything `apiCall`
throws) makes `maxRetries + 1` calls with exponentially doubling delays
`delay * 2^i`. Validation/Conflict/NotFound/Auth failures surfacing through
`apiCall` are plain `Error`s without a status, so they are retried like
transient failures (see the counterexample). -/
theorem claim5_retry_policy {α : Type} (attempts : Nat → Except JsError α)
    (maxRetries delay : Nat) :
    (∀ s m, 0 < s → s < 500 → attempts 0 = .error (.apiError (some s) m) →
      0 < maxRetries →
      withRetry attempts maxRetries delay = ⟨.error (.apiError (some s) m), 1, []⟩) ∧
    ((∀ k, ∃ e, attempts k = .error e ∧ isNonRetryable e = false) →
      (withRetry attempts maxRetries delay).calls = maxRetries + 1 ∧
      (withRetry attempts maxRetries delay).delays =
        (List.range maxRetries).map (fun i => delay * 2 ^ i)) := by
  constructor
  · intro s m hs hlt h0 hmr
    obtain ⟨n, rfl⟩ := Nat.exists_eq_succ_of_ne_zero (Nat.pos_iff_ne_zero.mp hmr)
    have hstop : isNonRetryable (.apiError (some s) m) = true := by
      simp [isNonRetryable]
      omega
    simp [withRetry, withRetryFrom, h0, hstop]
  · intro h
    have := withRetryFrom_all_fail attempts delay h maxRetries 0
    simpa [withRetry] using this

/-- Witness for the amended C5: an `ApiError` with status 400 propagates after
one call with no retry. -/
theorem claim5_witness :
    (0 < 400 ∧ 400 < 500 ∧
      (fun _ : Nat => (Except.error (.apiError (some 400) "Bad Request") : Except JsError Unit)) 0 =
        .error (.apiError (some 400) "Bad Request") ∧ 0 < 3) ∧
    withRetry (fun _ : Nat => (Except.error (.apiError (some 400) "Bad Request") : Except JsError Unit))
        3 1000 = ⟨.error (.apiError (some 400) "Bad Request"), 1, []⟩ :=
  ⟨⟨by decide, by decide, rfl, by decide⟩,
    (claim5_retry_policy (fun _ : Nat => (Except.error (.apiError (some 400) "Bad Request") : Except JsError Unit))
        3 1000).1 400 "Bad Request" (by decide) (by decide) rfl (by decide)⟩

/-- **C5 counterexample**: a Validation failure as `apiCall` actually produces
it (an HTTP 400 response becomes a plain `Error` carrying only the message) is
NOT propagated immediately: `withRetry` makes four calls and waits three
exponential backoff delays before giving up, contradicting the claim that
400-class errors propagate without any retry attempt. -/
theorem claim5_counterexample :
    withRetry (fun _ : Nat => (Except.error (apiCallError "Slug already exists") : Except JsError Unit))
        3 1000 = ⟨.error (.apiError none "Slug already exists"), 4, [1000, 2000, 4000]⟩ ∧
    (withRetry (fun _ : Nat => (Except.error (apiCallError "Slug already exists") : Except JsError Unit))
        3 1000).calls ≠ 1 := by
  exact ⟨rfl, by decide⟩

theorem getCandidate_saveCandidate_of_id (table : List Candidate) (c : Candidate)
    (id : String) (h : c.id = id) :
    getCandidate (saveCandidate table c) id = some c :=
  h ▸ getCandidate_saveCandidate_self table c

/-- **C6**: for any sequence of stage-changing updates applied through
`PATCH /candidates/:id` (each requesting a non-empty stage different from the
candidate's current stage), exactly one `stage_change` timeline event per
update is appended, in call order, recording `previousStage` = the stage held
just before that update and `newStage` = the requested stage; the final stage
is the last requested stage. -/
theorem claim6_stage_timeline (table : List Candidate) (id : String)
    (c : Candidate) (reqs : List StageUpdateRequest)
    (hc : getCandidate table id = some c)
    (hchain : stageChainOk c.stage reqs) :
    getCandidate (applyStageUpdates table id reqs) id =
      some { c with stage := finalStage c.stage reqs
                    timeline := c.timeline ++ expectedStageEvents c.stage reqs
                    updatedAt := finalUpdatedAt c.updatedAt reqs } := by
  induction reqs generalizing table c with
  | nil =>
    cases c
    simpa [applyStageUpdates, finalStage, expectedStageEvents, finalUpdatedAt] using hc
  | cons r rest ih =>
    obtain ⟨hne, hnee, hrest⟩ := hchain
    have hid : c.id = id := by
      simp only [getCandidate] at hc
      simpa using List.find?_some hc
    have happly : patchCandidateApply c ⟨some r.stage, none, none⟩ r.eventId r.now =
        { c with stage := r.stage
                 timeline := c.timeline ++
                   [⟨r.eventId, "stage_change", "Moved to " ++ r.stage ++ " stage",
                     some c.stage, some r.stage, r.now, r.now⟩]
                 updatedAt := r.now } := by
      simp only [patchCandidateApply]
      rw [if_pos ⟨hne, hnee⟩]
      rfl
    simp only [applyStageUpdates, patchCandidateEndpoint, hc]
    rw [happly]
    have hgc : getCandidate
        (saveCandidate table
          { c with stage := r.stage
                   timeline := c.timeline ++
                     [⟨r.eventId, "stage_change", "Moved to " ++ r.stage ++ " stage",
                       some c.stage, some r.stage, r.now, r.now⟩]
                   updatedAt := r.now }) id =
        some { c with stage := r.stage
                      timeline := c.timeline ++
                        [⟨r.eventId, "stage_change", "Moved to " ++ r.stage ++ " stage",
                          some c.stage, some r.stage, r.now, r.now⟩]
                      updatedAt := r.now } :=
      getCandidate_saveCandidate_of_id table _ id hid
    refine (ih _ _ hgc hrest).trans (congrArg some ?_)
    cases c
    simp [finalStage, expectedStageEvents, finalUpdatedAt]

/-- Witness for C6 at the spec's scenario: screen → tech → screen appends two
events and the final stage is "screen". -/
theorem claim6_witness :
    getCandidate [candScreen] "c1" = some candScreen ∧
    stageChainOk candScreen.stage [⟨"tech", "e1", 2⟩, ⟨"screen", "e2", 3⟩] ∧
    getCandidate
        (applyStageUpdates [candScreen] "c1" [⟨"tech", "e1", 2⟩, ⟨"screen", "e2", 3⟩]) "c1" =
      some { candScreen with
               stage := finalStage candScreen.stage [⟨"tech", "e1", 2⟩, ⟨"screen", "e2", 3⟩]
               timeline := candScreen.timeline ++
                 expectedStageEvents candScreen.stage [⟨"tech", "e1", 2⟩, ⟨"screen", "e2", 3⟩]
               updatedAt := finalUpdatedAt candScreen.updatedAt
                 [⟨"tech", "e1", 2⟩, ⟨"screen", "e2", 3⟩] } :=
  ⟨by decide, by decide,
    claim6_stage_timeline [candScreen] "c1" candScreen
      [⟨"tech", "e1", 2⟩, ⟨"screen", "e2", 3⟩] (by decide) (by decide)⟩

theorem shiftOrder_mem {S : Multiset Int} {f t : Int}
    (hcl : ∀ o : Int, min f t ≤ o → o ≤ max f t → o ∈ S) {o : Int} (ho : o ∈ S) :
    shiftOrder f t o ∈ S := by
  simp only [shiftOrder]
  split_ifs with h1 h2 h3
  · exact hcl t (by omega) (by omega)
  · exact hcl (o - 1) (by omega) (by omega)
  · exact hcl (o + 1) (by omega) (by omega)
  · exact ho

theorem map_shiftOrder_eq (S : Multiset Int) (f t : Int) (hnd : S.Nodup)
    (hcl : ∀ o : Int, min f t ≤ o → o ≤ max f t → o ∈ S) :
    S.map (shiftOrder f t) = S := by
  have hnd' : (S.map (shiftOrder f t)).Nodup := hnd.map (shiftOrder_injective f t)
  have hsub : S.map (shiftOrder f t) ⊆ S := by
    intro x hx
    obtain ⟨o, ho, rfl⟩ := Multiset.mem_map.mp hx
    exact shiftOrder_mem hcl ho
  have hle : S.map (shiftOrder f t) ≤ S := (Multiset.le_iff_subset hnd').mpr hsub
  exact Multiset.eq_of_le_of_card_le hle (by simp)

theorem saveJob_replace (table : List Job) (g : Job → Job)
    (hg : ∀ j : Job, (g j).id = j.id) (j : Job) (hj : j ∈ table)
    (hnd : (table.map Job.id).Nodup) :
    saveJob table (g j) = table.map (fun x => if x.id = j.id then g x else x) := by
  unfold saveJob
  have hany : table.any (fun x => x.id = (g j).id) = true :=
    List.any_eq_true.mpr ⟨j, hj, by simp [hg]⟩
  rw [if_pos hany]
  refine List.map_congr_left (fun x hx => ?_)
  rw [hg]
  by_cases hxe : x.id = j.id
  · rw [if_pos hxe, if_pos hxe]
    have hx_eq : x = j := List.inj_on_of_nodup_map hnd hx hj hxe
    rw [hx_eq]
  · rw [if_neg hxe, if_neg hxe]

theorem foldl_saveJob (g : Job → Job) (hg : ∀ j : Job, (g j).id = j.id) :
    ∀ (l table : List Job), (l.map Job.id).Nodup → (∀ j ∈ l, j ∈ table) →
      (table.map Job.id).Nodup →
      (l.map g).foldl saveJob table =
        table.map (fun x => if x.id ∈ l.map Job.id then g x else x) := by
  intro l
  induction l with
  | nil =>
    intro table _ _ _
    simp
  | cons j rest ih =>
    intro table hndl hmem hndt
    rw [List.map_cons] at hndl
    have hjid : j.id ∉ rest.map Job.id := (List.nodup_cons.mp hndl).1
    have hndrest : (rest.map Job.id).Nodup := (List.nodup_cons.mp hndl).2
    simp only [List.map_cons, List.foldl_cons]
    rw [saveJob_replace table g hg j (hmem j (List.mem_cons_self j rest)) hndt]
    have hids : (table.map (fun x => if x.id = j.id then g x else x)).map Job.id =
        table.map Job.id := by
      rw [List.map_map]
      refine List.map_congr_left (fun x _ => ?_)
      by_cases hxe : x.id = j.id
      · simp [Function.comp, hxe, hg]
      · simp [Function.comp, hxe]
    have hndt' : ((table.map (fun x => if x.id = j.id then g x else x)).map Job.id).Nodup := by
      rw [hids]; exact hndt
    have hmem' : ∀ x ∈ rest, x ∈ table.map (fun y => if y.id = j.id then g y else y) := by
      intro x hx
      have hxt : x ∈ table := hmem x (List.mem_cons_of_mem _ hx)
      have hxne : ¬ x.id = j.id := fun he => hjid (he ▸ List.mem_map_of_mem Job.id hx)
      refine List.mem_map.mpr ⟨x, hxt, ?_⟩
      rw [if_neg hxne]
    rw [ih _ hndrest hmem' hndt']
    rw [List.map_map]
    refine List.map_congr_left (fun x _ => ?_)
    simp only [Function.comp_apply, List.map_cons]
    by_cases hxe : x.id = j.id
    · rw [if_pos hxe]
      rw [if_neg (by rw [hg x, hxe]; exact hjid)]
      rw [if_pos (by rw [hxe]; exact List.mem_cons_self _ _)]
    · rw [if_neg hxe]
      by_cases hmemr : x.id ∈ rest.map Job.id
      · rw [if_pos hmemr, if_pos (List.mem_cons_of_mem _ hmemr)]
      · rw [if_neg hmemr, if_neg (by simp [hxe, hmemr])]

/-- **C1 (amended)**: for a jobs table with pairwise-distinct ids (the keyed
storage invariant) and pairwise-distinct order values, a `(fromOrder, toOrder)`
pair with `fromOrder ≠ toOrder` and some job occupying `fromOrder` is handled
correctly by the reorder endpoint PROVIDED every integer between the two
orders is occupied (e.g. contiguous 0..N-1 orders): the multiset of order
values is preserved, no two jobs share an order afterwards, the moved job's
order equals `toOrder` exactly, and the persisted table is the pointwise shift
of the input table. Without the occupied-interval proviso the order set is not
preserved (see the counterexample). -/
theorem claim1_reorder_correct (table : List Job) (fromOrder toOrder : Int)
    (now : Nat)
    (hnd : (table.map Job.order).Nodup)
    (hndid : (table.map Job.id).Nodup)
    (hocc : ∃ j ∈ table, j.order = fromOrder)
    (hne : fromOrder ≠ toOrder)
    (hcl : ∀ o : Int, min fromOrder toOrder ≤ o → o ≤ max fromOrder toOrder →
      ∃ j ∈ table, j.order = o) :
    ∃ updated : List Job,
      (reorderEndpoint table fromOrder toOrder now).1 = .ok updated ∧
      updated = (getAllJobs table).map (reorderShift fromOrder toOrder now) ∧
      (↑(updated.map Job.order) : Multiset Int) = ↑(table.map Job.order) ∧
      (updated.map Job.order).Nodup ∧
      (∀ j ∈ table, j.order = fromOrder →
        ∃ j' ∈ updated, j'.id = j.id ∧ j'.order = toOrder) ∧
      (reorderEndpoint table fromOrder toOrder now).2 =
        table.map (reorderShift fromOrder toOrder now) := by
  obtain ⟨j0, hj0, hj0f⟩ := hocc
  have hfind : ((getAllJobs table).find? (fun job => job.order = fromOrder)).isSome := by
    rw [List.find?_isSome]
    exact ⟨j0, mem_getAllJobs.mpr hj0, by simpa using hj0f⟩
  obtain ⟨jw, hjw⟩ := Option.isSome_iff_exists.mp hfind
  have horders :
      ((getAllJobs table).map (reorderShift fromOrder toOrder now)).map Job.order =
        ((getAllJobs table).map Job.order).map (shiftOrder fromOrder toOrder) := by
    rw [List.map_map, List.map_map]
    exact List.map_congr_left (fun j _ => reorderShift_order _ _ _ j)
  have hnd1 : ((getAllJobs table).map Job.order).Nodup :=
    (((getAllJobs_perm table).map Job.order).nodup_iff).mpr hnd
  have hScoe : (↑((getAllJobs table).map Job.order) : Multiset Int) =
      ↑(table.map Job.order) :=
    Multiset.coe_eq_coe.mpr ((getAllJobs_perm table).map Job.order)
  have hclS : ∀ o : Int, min fromOrder toOrder ≤ o → o ≤ max fromOrder toOrder →
      o ∈ (↑(table.map Job.order) : Multiset Int) := by
    intro o h1 h2
    obtain ⟨j, hj, hjo⟩ := hcl o h1 h2
    exact Multiset.mem_coe.mpr (hjo ▸ List.mem_map_of_mem Job.order hj)
  have hndS : (↑(table.map Job.order) : Multiset Int).Nodup :=
    Multiset.coe_nodup.mpr hnd
  have hmapS :
      (↑(table.map Job.order) : Multiset Int).map (shiftOrder fromOrder toOrder) =
        ↑(table.map Job.order) :=
    map_shiftOrder_eq _ _ _ hndS hclS
  refine ⟨(getAllJobs table).map (reorderShift fromOrder toOrder now), ?_, rfl, ?_, ?_, ?_, ?_⟩
  · simp only [reorderEndpoint, hjw]
  · rw [horders]
    calc (↑(((getAllJobs table).map Job.order).map (shiftOrder fromOrder toOrder)) :
          Multiset Int)
        = (↑((getAllJobs table).map Job.order) : Multiset Int).map
            (shiftOrder fromOrder toOrder) := by
          rw [Multiset.map_coe]
      _ = (↑(table.map Job.order) : Multiset Int).map (shiftOrder fromOrder toOrder) := by
          rw [hScoe]
      _ = ↑(table.map Job.order) := hmapS
  · rw [horders]
    exact hnd1.map (shiftOrder_injective fromOrder toOrder)
  · intro j hj hjf
    refine ⟨reorderShift fromOrder toOrder now j,
      List.mem_map_of_mem _ (mem_getAllJobs.mpr hj), reorderShift_id _ _ _ _, ?_⟩
    rw [reorderShift_order, hjf]
    simp [shiftOrder]
  · simp only [reorderEndpoint, hjw]
    rw [foldl_saveJob (reorderShift fromOrder toOrder now)
      (reorderShift_id fromOrder toOrder now) (getAllJobs table) table
      ((((getAllJobs_perm table).map Job.id).nodup_iff).mpr hndid)
      (fun j hj => mem_getAllJobs.mp hj) hndid]
    refine List.map_congr_left (fun x hx => ?_)
    exact if_pos (List.mem_map_of_mem Job.id (mem_getAllJobs.mpr hx))

/-- **C1 counterexample**: with uniquely-ordered jobs at orders 1 and 3 and
the valid pair `fromOrder = 1 ≠ toOrder = 2` (order 1 is occupied), the
reorder succeeds but the resulting order values {2, 3} are NOT a permutation
of the original {1, 3}. -/
theorem claim1_counterexample :
    ([jobB, jobGap3].map Job.order).Nodup ∧
    (∃ j ∈ [jobB, jobGap3], j.order = 1) ∧ (1 : Int) ≠ 2 ∧
    (reorderEndpoint [jobB, jobGap3] 1 2 5).1 =
      .ok ((getAllJobs [jobB, jobGap3]).map (reorderShift 1 2 5)) ∧
    ¬ (((getAllJobs [jobB, jobGap3]).map (reorderShift 1 2 5)).map Job.order).Perm
        ([jobB, jobGap3].map Job.order) := by
  decide

/-- Witness for the amended C1 at the spec's scenario: jobs A, B, C at orders
0, 1, 2; reordering 0 → 2 gives final orders B = 0, C = 1, A = 2. -/
theorem claim1_witness :
    (([jobA, jobB, jobC].map Job.order).Nodup ∧
      ([jobA, jobB, jobC].map Job.id).Nodup ∧
      (∃ j ∈ [jobA, jobB, jobC], j.order = 0) ∧ (0 : Int) ≠ 2) ∧
    (∃ updated : List Job,
      (reorderEndpoint [jobA, jobB, jobC] 0 2 5).1 = .ok updated ∧
      updated = (getAllJobs [jobA, jobB, jobC]).map (reorderShift 0 2 5) ∧
      (↑(updated.map Job.order) : Multiset Int) = ↑([jobA, jobB, jobC].map Job.order) ∧
      (updated.map Job.order).Nodup ∧
      (∀ j ∈ [jobA, jobB, jobC], j.order = 0 →
        ∃ j' ∈ updated, j'.id = j.id ∧ j'.order = 2) ∧
      (reorderEndpoint [jobA, jobB, jobC] 0 2 5).2 =
        [jobA, jobB, jobC].map (reorderShift 0 2 5)) ∧
    (reorderEndpoint [jobA, jobB, jobC] 0 2 5).2 =
      [{ jobA with order := 2, updatedAt := 5 },
       { jobB with order := 0, updatedAt := 5 },
       { jobC with order := 1, updatedAt := 5 }] :=
  ⟨⟨by decide, by decide, by decide, by decide⟩,
    claim1_reorder_correct [jobA, jobB, jobC] 0 2 5 (by decide) (by decide)
      (by decide) (by decide)
      (by
        intro o h1 h2
        have ho : o = 0 ∨ o = 1 ∨ o = 2 := by omega
        rcases ho with rfl | rfl | rfl
        · exact ⟨jobA, by decide, by decide⟩
        · exact ⟨jobB, by decide, by decide⟩
        · exact ⟨jobC, by decide, by decide⟩),
    by decide⟩
